import Mathlib

/-
  Verification of `serial-monitor.py`: a script that opens a serial port,
  polls it for incoming bytes during a fixed capture window, prints every
  received chunk in hexadecimal and textual form, and closes the port.

  The embedding models the device as a schedule of poll ticks: at each tick
  the driver either has some buffered bytes (possibly none) or the read
  attempt raises. Wall-clock time is modelled in milliseconds; the loop
  compares `now - start` against the window exactly as the source compares
  `time.time() - start < 10`, and each iteration ends with a 100 ms sleep.
-/

namespace SerialMonitor

/-- A byte, as stored in a Python `bytes` object. -/
abbrev Byte := Fin 256

/-- Lowercase hexadecimal digit for a value below 16, as produced by
`bytes.hex()` (0-9 then a-f). -/
def hexDigit (n : Nat) : Char :=
  if n < 10 then Char.ofNat (48 + n) else Char.ofNat (87 + n)

/-- The two lowercase hex digits of one byte, high nibble first. -/
def byteHexChars (b : Byte) : List Char :=
  [hexDigit (b.val / 16), hexDigit (b.val % 16)]

/-- Characters of `data.hex()`: two lowercase digits per byte, in order. -/
def bytesHexChars (bs : List Byte) : List Char :=
  (bs.map byteHexChars).flatten

/-- The string `data.hex()`. -/
def bytesHex (bs : List Byte) : String :=
  String.mk (bytesHexChars bs)

/-- Inverse of `hexDigit`: value of one lowercase hex digit, `none` for any
other character. -/
def unhexDigit (c : Char) : Option Nat :=
  if 48 ≤ c.toNat ∧ c.toNat ≤ 57 then some (c.toNat - 48)
  else if 97 ≤ c.toNat ∧ c.toNat ≤ 102 then some (c.toNat - 87)
  else none

/-- Decode a lowercase hex string back to bytes (as `bytes.fromhex` does for
the strings `bytes.hex()` emits): digits are taken in pairs, high nibble
first; an odd length or a non-digit yields `none`. -/
def decodeHexChars : List Char → Option (List Byte)
  | [] => some []
  | [_] => none
  | c1 :: c2 :: rest =>
    match unhexDigit c1, unhexDigit c2, decodeHexChars rest with
    | some h, some l, some bs =>
      if hlt : 16 * h + l < 256 then some (⟨16 * h + l, hlt⟩ :: bs) else none
    | _, _, _ => none

/-- Decode a hex string back to bytes. -/
def decodeHexStr (s : String) : Option (List Byte) :=
  decodeHexChars s.data

/-- Quote character chosen by Python `bytes.__repr__`: a single quote,
unless the bytes contain a single quote (39) and no double quote (34). -/
def reprQuote (bs : List Byte) : Char :=
  if bs.any (fun b => b.val == 39) && !(bs.any (fun b => b.val == 34)) then
    Char.ofNat 34
  else
    Char.ofNat 39

/-- Rendering of one byte inside Python `bytes.__repr__` with quote `q`:
the quote and the backslash are backslash-escaped, tab, newline and
carriage return use their mnemonic escapes, other bytes outside 32..126 use
a lowercase `\xhh` escape, and printable bytes appear verbatim. -/
def reprEscapeByte (q : Char) (b : Byte) : List Char :=
  if b.val = q.toNat ∨ b.val = 92 then [Char.ofNat 92, Char.ofNat b.val]
  else if b.val = 9 then [Char.ofNat 92, 't']
  else if b.val = 10 then [Char.ofNat 92, 'n']
  else if b.val = 13 then [Char.ofNat 92, 'r']
  else if b.val < 32 ∨ 127 ≤ b.val then
    [Char.ofNat 92, 'x', hexDigit (b.val / 16), hexDigit (b.val % 16)]
  else [Char.ofNat b.val]

/-- Characters of Python `str(data)` for a `bytes` object: `b`, the chosen
quote, each byte escaped, the closing quote. This is what the f-string
`{data}` interpolates. -/
def bytesReprChars (bs : List Byte) : List Char :=
  Char.ofNat 98 :: reprQuote bs
    :: (bs.map (reprEscapeByte (reprQuote bs))).flatten ++ [reprQuote bs]

/-- The string `str(data)` for a `bytes` object. -/
def bytesRepr (bs : List Byte) : String :=
  String.mk (bytesReprChars bs)

/-- The line printed for one chunk:
`print(f"Received: {data.hex()} | ASCII: {data}")`. -/
def receivedLine (bs : List Byte) : String :=
  String.mk ("Received: ".data ++ bytesHexChars bs
    ++ " | ASCII: ".data ++ bytesReprChars bs)

/-- What the device offers at one poll tick: either its driver buffer
holds the bytes `bs` (possibly none), or querying/reading the port raises
(device gone mid-capture). -/
inductive Tick
  | data (bs : List Byte)
  | fail
deriving DecidableEq, BEq

/-- Errors a run can surface: failure to open the port, or a failing
read after a successful open. -/
inductive RunError
  | deviceError
  | readError
deriving DecidableEq, BEq

/-- `port.in_waiting`: number of bytes currently buffered by the driver.
On a failing tick the property reports a positive count (the failure
surfaces at the read). -/
def inWaiting : Tick → Nat
  | Tick.data bs => bs.length
  | Tick.fail => 1

/-- `port.read(n)`: takes the first `n` bytes of the driver buffer,
without blocking for more than is there. -/
def bufferRead (bs : List Byte) (n : Nat) : List Byte :=
  bs.take n

/-- The body of one poll tick with buffer `bs`:
`if port.in_waiting > 0: data = port.read(port.in_waiting); print(...)`.
Returns the lines printed at this tick. -/
def pollOutput (bs : List Byte) : List String :=
  if 0 < inWaiting (Tick.data bs) then
    [receivedLine (bufferRead bs (inWaiting (Tick.data bs)))]
  else []

/-- Observable outcome of the polling loop. -/
structure LoopOut where
  lines : List String
  err : Option RunError
  endTime : Nat
  sleeps : Nat
deriving DecidableEq

/-- The loop `while time.time() - start < window`, driven by the tick
schedule `ticks` (ticks past the end of the schedule carry no data). Each
iteration handles the current buffer then sleeps `poll` ms, advancing the
clock `now`; a failing tick raises out of the loop. `fuel` bounds the
recursion; every run below supplies `fuel = window`, which (for a positive
poll interval) exceeds the number of iterations. -/
def loopFuel (window poll start : Nat) : Nat → Nat → List Tick → LoopOut
  | 0, now, _ => ⟨[], none, now, 0⟩
  | fuel + 1, now, ticks =>
    if now - start < window then
      match ticks.headD (Tick.data []) with
      | Tick.fail => ⟨[], some RunError.readError, now, 0⟩
      | Tick.data bs =>
        let r := loopFuel window poll start fuel (now + poll) ticks.tail
        ⟨pollOutput bs ++ r.lines, r.err, r.endTime, r.sleeps + 1⟩
    else ⟨[], none, now, 0⟩

/-- Observable outcome of one whole run. `closeCount` counts executions of
`port.close()`; `donePrinted` records whether the final `print("\nDone")`
ran. -/
structure RunResult where
  lines : List String
  err : Option RunError
  endTime : Nat
  sleeps : Nat
  donePrinted : Bool
  closeCount : Nat
deriving DecidableEq

/-- A run after a successful open, started at wall-clock `start`: run the
polling loop; on normal loop exit print Done and close the port, while an
escaping read error skips both (the source has no try/finally). -/
def runAt (window poll start : Nat) (ticks : List Tick) : RunResult :=
  let r := loopFuel window poll start window start ticks
  match r.err with
  | none => ⟨r.lines, none, r.endTime, r.sleeps, true, 1⟩
  | some e => ⟨r.lines, some e, r.endTime, r.sleeps, false, 0⟩

/-- The capture window of the source: 10 seconds, in ms. -/
def WINDOW : Nat := 10000

/-- The poll interval of the source: `time.sleep(0.1)`, in ms. -/
def POLL : Nat := 100

/-- A whole run of the script: `serial.Serial(...)` either succeeds and the
capture proceeds, or raises and nothing else happens. -/
def runDevice (openOk : Bool) (start : Nat) (ticks : List Tick) : RunResult :=
  if openOk then runAt WINDOW POLL start ticks
  else ⟨[], some RunError.deviceError, start, 0, false, 0⟩

/-- Number of iterations the loop performs from elapsed time `e`, mirrored
from `loopFuel` with the same fuel discipline. -/
def countTicksFuel (window poll : Nat) : Nat → Nat → Nat
  | 0, _ => 0
  | fuel + 1, e =>
    if e < window then countTicksFuel window poll fuel (e + poll) + 1 else 0

/-- Number of poll iterations in a full run. -/
def countTicks (window poll : Nat) : Nat :=
  countTicksFuel window poll window 0

/-! ## Helper lemmas -/

set_option maxRecDepth 4000 in
/-- `unhexDigit` inverts `hexDigit` on nibble values. -/
theorem unhex_hexDigit : ∀ n : Nat, n < 16 → unhexDigit (hexDigit n) = some n := by
  decide

/-- Decoding the two hex digits of a byte prepends that byte. -/
theorem decodeHexChars_byte (b : Byte) (rest : List Char) :
    decodeHexChars (byteHexChars b ++ rest)
      = Option.map (fun bs => b :: bs) (decodeHexChars rest) := by
  have hd : b.val / 16 < 16 := by omega
  have hm : b.val % 16 < 16 := by omega
  have h1 := unhex_hexDigit _ hd
  have h2 := unhex_hexDigit _ hm
  show decodeHexChars (hexDigit (b.val / 16) :: hexDigit (b.val % 16) :: rest) = _
  rw [decodeHexChars, h1, h2]
  cases hrest : decodeHexChars rest with
  | none => rfl
  | some bs =>
    have hb : 16 * (b.val / 16) + b.val % 16 = b.val := Nat.div_add_mod b.val 16
    have hlt : 16 * (b.val / 16) + b.val % 16 < 256 := by rw [hb]; exact b.isLt
    simp only [dif_pos hlt, Option.map_some]
    congr 1
    exact congrArg (fun x => x :: bs) (Fin.ext hb)

/-- Hex encoding round-trips: decoding `bytes.hex()` recovers the bytes. -/
theorem decode_bytesHexChars (bs : List Byte) :
    decodeHexChars (bytesHexChars bs) = some bs := by
  induction bs with
  | nil => rfl
  | cons b tl ih =>
    have hsplit : bytesHexChars (b :: tl) = byteHexChars b ++ bytesHexChars tl := by
      simp [bytesHexChars]
    rw [hsplit, decodeHexChars_byte, ih]
    rfl

/-- The `runAt` wrapper only repackages the loop outcome. -/
theorem runAt_fields (window poll start : Nat) (ticks : List Tick) :
    (runAt window poll start ticks).lines
        = (loopFuel window poll start window start ticks).lines
    ∧ (runAt window poll start ticks).err
        = (loopFuel window poll start window start ticks).err
    ∧ (runAt window poll start ticks).endTime
        = (loopFuel window poll start window start ticks).endTime
    ∧ (runAt window poll start ticks).sleeps
        = (loopFuel window poll start window start ticks).sleeps
    ∧ (runAt window poll start ticks).closeCount
        = (if (loopFuel window poll start window start ticks).err = none
            then 1 else 0)
    ∧ (runAt window poll start ticks).donePrinted
        = decide ((loopFuel window poll start window start ticks).err = none) := by
  unfold runAt
  cases h : (loopFuel window poll start window start ticks).err <;> simp [h]

/-- On an all-data schedule, the loop prints exactly the nonempty chunks of
the first `countTicksFuel` ticks, in order, each as `receivedLine`. -/
theorem loopFuel_lines_data (window poll start : Nat) :
    ∀ (fuel now : Nat) (chunks : List (List Byte)), start ≤ now →
      (loopFuel window poll start fuel now (chunks.map Tick.data)).lines
        = ((chunks.take (countTicksFuel window poll fuel (now - start))).filter
            (fun c => !c.isEmpty)).map receivedLine := by
  intro fuel
  induction fuel with
  | zero => intro now chunks h; simp [loopFuel, countTicksFuel]
  | succ fuel ih =>
    intro now chunks h
    have hstep : now + poll - start = now - start + poll := Nat.sub_add_comm h
    by_cases hlt : now - start < window
    · cases chunks with
      | nil =>
        have ihz := ih (now + poll) [] (Nat.le_trans h (Nat.le_add_right _ _))
        simp [loopFuel, countTicksFuel, hlt, pollOutput, inWaiting] at ihz ⊢
        exact ihz
      | cons c cs =>
        have ihc := ih (now + poll) cs (Nat.le_trans h (Nat.le_add_right _ _))
        rw [hstep] at ihc
        simp only [List.map_cons, loopFuel, hlt, if_pos, List.headD_cons,
          List.tail_cons, countTicksFuel, hstep]
        rw [ihc]
        cases c with
        | nil => simp [pollOutput, inWaiting]
        | cons x xs =>
          simp [pollOutput, inWaiting, bufferRead, List.take_length]
    · simp [loopFuel, countTicksFuel, hlt]

/-- An all-data schedule never raises: the loop exits normally. -/
theorem loopFuel_err_data (window poll start : Nat) :
    ∀ (fuel now : Nat) (chunks : List (List Byte)),
      (loopFuel window poll start fuel now (chunks.map Tick.data)).err = none := by
  intro fuel
  induction fuel with
  | zero => intro now chunks; simp [loopFuel]
  | succ fuel ih =>
    intro now chunks
    by_cases hlt : now - start < window
    · cases chunks with
      | nil =>
        have := ih (now + poll) []
        simp [loopFuel, hlt] at this ⊢
        exact this
      | cons c cs =>
        have := ih (now + poll) cs
        simp [loopFuel, hlt] at this ⊢
        exact this
    · simp [loopFuel, hlt]

/-- The loop exit clock never passes `start + window + poll`. -/
theorem loopFuel_endTime_lt (window poll start : Nat) :
    ∀ (fuel now : Nat) (ticks : List Tick), start ≤ now →
      now - start < window + poll →
      (loopFuel window poll start fuel now ticks).endTime - start < window + poll := by
  intro fuel
  induction fuel with
  | zero => intro now ticks h hin; simpa [loopFuel] using hin
  | succ fuel ih =>
    intro now ticks h hin
    have hnext : now + poll - start = now - start + poll := Nat.sub_add_comm h
    have hmono : start ≤ now + poll := Nat.le_trans h (Nat.le_add_right _ _)
    by_cases hlt : now - start < window
    · cases ticks with
      | nil =>
        have := ih (now + poll) [] hmono (by rw [hnext]; omega)
        simpa [loopFuel, hlt] using this
      | cons t ts =>
        cases t with
        | fail => simpa [loopFuel, hlt] using hin
        | data bs =>
          have := ih (now + poll) ts hmono (by rw [hnext]; omega)
          simpa [loopFuel, hlt] using this
    · simpa [loopFuel, hlt] using hin

/-- On an all-data schedule the loop sleeps exactly once per iteration and
the clock advances only by those sleeps. -/
theorem loopFuel_time_data (window poll start : Nat) :
    ∀ (fuel now : Nat) (chunks : List (List Byte)), start ≤ now →
      (loopFuel window poll start fuel now (chunks.map Tick.data)).sleeps
          = countTicksFuel window poll fuel (now - start)
      ∧ (loopFuel window poll start fuel now (chunks.map Tick.data)).endTime
          = now + poll *
              (loopFuel window poll start fuel now (chunks.map Tick.data)).sleeps := by
  intro fuel
  induction fuel with
  | zero => intro now chunks h; simp [loopFuel, countTicksFuel]
  | succ fuel ih =>
    intro now chunks h
    have hstep : now + poll - start = now - start + poll := Nat.sub_add_comm h
    by_cases hlt : now - start < window
    · have hmono : start ≤ now + poll := Nat.le_trans h (Nat.le_add_right _ _)
      cases chunks with
      | nil =>
        have ihz := ih (now + poll) [] hmono
        rw [hstep] at ihz
        simp only [List.map_nil, loopFuel, hlt, if_pos, List.headD_nil,
          List.tail_nil, countTicksFuel] at ihz ⊢
        refine ⟨by rw [ihz.1], ?_⟩
        rw [ihz.2, ihz.1]
        ring
      | cons c cs =>
        have ihc := ih (now + poll) cs hmono
        rw [hstep] at ihc
        simp only [List.map_cons, loopFuel, hlt, if_pos, List.headD_cons,
          List.tail_cons, countTicksFuel] at ihc ⊢
        refine ⟨by rw [ihc.1], ?_⟩
        rw [ihc.2, ihc.1]
        ring
    · simp [loopFuel, countTicksFuel, hlt]

/-- Printed lines depend only on the elapsed time, not on the absolute
start timestamp: two loops with equal elapsed clocks print the same. -/
theorem loopFuel_lines_shift (window poll : Nat) :
    ∀ (fuel start1 now1 start2 now2 : Nat) (ticks : List Tick),
      start1 ≤ now1 → start2 ≤ now2 → now1 - start1 = now2 - start2 →
      (loopFuel window poll start1 fuel now1 ticks).lines
        = (loopFuel window poll start2 fuel now2 ticks).lines := by
  intro fuel
  induction fuel with
  | zero => intro start1 now1 start2 now2 ticks h1 h2 he; simp [loopFuel]
  | succ fuel ih =>
    intro start1 now1 start2 now2 ticks h1 h2 he
    have hnext : now1 + poll - start1 = now2 + poll - start2 := by
      rw [Nat.sub_add_comm h1, Nat.sub_add_comm h2, he]
    have hm1 : start1 ≤ now1 + poll := Nat.le_trans h1 (Nat.le_add_right _ _)
    have hm2 : start2 ≤ now2 + poll := Nat.le_trans h2 (Nat.le_add_right _ _)
    by_cases hlt : now1 - start1 < window
    · have hlt2 : now2 - start2 < window := he ▸ hlt
      cases ticks with
      | nil =>
        have := ih start1 (now1 + poll) start2 (now2 + poll) [] hm1 hm2 hnext
        simpa [loopFuel, hlt, hlt2] using this
      | cons t ts =>
        cases t with
        | fail => simp [loopFuel, hlt, hlt2]
        | data bs =>
          have := ih start1 (now1 + poll) start2 (now2 + poll) ts hm1 hm2 hnext
          simp [loopFuel, hlt, hlt2, this]
    · have hlt2 : ¬ now2 - start2 < window := he ▸ hlt
      simp [loopFuel, hlt, hlt2]

set_option maxRecDepth 4000 in
/-- Neither hex digit of a byte is a newline. -/
theorem byteHexChars_newline : ∀ b : Byte, ¬ Char.ofNat 10 ∈ byteHexChars b := by
  decide

/-- The hex rendering of a chunk contains no newline. -/
theorem bytesHexChars_newline (bs : List Byte) :
    ¬ Char.ofNat 10 ∈ bytesHexChars bs := by
  intro hmem
  rw [bytesHexChars, List.mem_flatten] at hmem
  obtain ⟨l, hl, hc⟩ := hmem
  rw [List.mem_map] at hl
  obtain ⟨b, _, rfl⟩ := hl
  exact byteHexChars_newline b hc

set_option maxRecDepth 4000 in
/-- The escaped rendering of a byte contains no newline, for either quote
character Python can choose. -/
theorem reprEscapeByte_newline : ∀ b : Byte,
    (¬ Char.ofNat 10 ∈ reprEscapeByte (Char.ofNat 39) b)
    ∧ (¬ Char.ofNat 10 ∈ reprEscapeByte (Char.ofNat 34) b) := by
  decide

/-- The quote chosen by `bytes.__repr__` is a single or double quote. -/
theorem reprQuote_cases (bs : List Byte) :
    reprQuote bs = Char.ofNat 39 ∨ reprQuote bs = Char.ofNat 34 := by
  unfold reprQuote
  split
  · exact Or.inr rfl
  · exact Or.inl rfl

/-- The textual rendering of a chunk contains no newline: Python escapes
the byte 10 as the two characters backslash-n. -/
theorem bytesReprChars_newline (bs : List Byte) :
    ¬ Char.ofNat 10 ∈ bytesReprChars bs := by
  have hesc : ∀ b : Byte, ¬ Char.ofNat 10 ∈ reprEscapeByte (reprQuote bs) b := by
    intro b
    rcases reprQuote_cases bs with hq | hq <;> rw [hq]
    · exact (reprEscapeByte_newline b).1
    · exact (reprEscapeByte_newline b).2
  have hqne : ¬ Char.ofNat 10 = reprQuote bs := by
    rcases reprQuote_cases bs with hq | hq <;> rw [hq] <;> decide
  intro hmem
  rw [bytesReprChars] at hmem
  rcases List.mem_cons.mp hmem with h98 | hmem2
  · exact absurd h98 (by decide)
  rcases List.mem_cons.mp hmem2 with hq10 | hmem3
  · exact hqne hq10
  rcases List.mem_append.mp hmem3 with hfl | hsing
  · rw [List.mem_flatten] at hfl
    obtain ⟨l, hl, hc⟩ := hfl
    rw [List.mem_map] at hl
    obtain ⟨b, _, rfl⟩ := hl
    exact hesc b hc
  · rw [List.mem_singleton] at hsing
    exact hqne hsing

set_option maxRecDepth 4000 in
/-- Both hex digits of a byte are lowercase hex digits (characters that
`unhexDigit` accepts: 0-9 and a-f). -/
theorem byteHexChars_lower :
    ∀ b : Byte, ((byteHexChars b).all fun c => (unhexDigit c).isSome) = true := by
  decide

/-- Every character of the hex rendering is a lowercase hex digit. -/
theorem bytesHexChars_lower (bs : List Byte) :
    ((bytesHexChars bs).all fun c => (unhexDigit c).isSome) = true := by
  rw [List.all_eq_true]
  intro c hc
  rw [bytesHexChars, List.mem_flatten] at hc
  obtain ⟨l, hl, hcl⟩ := hc
  rw [List.mem_map] at hl
  obtain ⟨b, _, rfl⟩ := hl
  exact List.all_eq_true.mp (byteHexChars_lower b) c hcl

/-! ## Claims -/

/-- Claim C1, counterexample: a run whose open succeeds and whose first
poll tick raises on the read exits with a read error and never executes
`port.close()` — the source has no try/finally around the loop, so the
close on the last line is skipped, refuting closure on every exit path. -/
theorem C1_counterexample :
    (runDevice true 0 [Tick.fail]).err = some RunError.readError
    ∧ (runDevice true 0 [Tick.fail]).closeCount = 0 := by
  decide

/-- Claim C1, amended: in a run whose open succeeds, the device handle is
closed exactly once when the capture window completes normally, and is not
closed at all when a fatal read error escapes the loop. -/
theorem C1_close_on_normal_exit_only (start : Nat) (ticks : List Tick) :
    (runDevice true start ticks).closeCount
      = if (runDevice true start ticks).err = none then 1 else 0 := by
  have hrun : runDevice true start ticks = runAt WINDOW POLL start ticks := by
    simp [runDevice]
  rw [hrun, (runAt_fields WINDOW POLL start ticks).2.2.2.2.1,
    (runAt_fields WINDOW POLL start ticks).2.1]

/-- Claim C2: for every chunk schedule the device delivers during the
window, the output lines are exactly the nonempty delivered chunks, once
each, in arrival order, each rendered by `receivedLine`; and the hex
rendering in each line decodes back to the chunk exactly. -/
theorem C2_chunks_once_in_order_hex_consistent :
    (∀ (start : Nat) (chunks : List (List Byte)),
      (runAt WINDOW POLL start (chunks.map Tick.data)).lines
        = ((chunks.take (countTicks WINDOW POLL)).filter
            (fun c => !c.isEmpty)).map receivedLine)
    ∧ (∀ bs : List Byte, decodeHexStr (bytesHex bs) = some bs) := by
  constructor
  · intro start chunks
    rw [(runAt_fields WINDOW POLL start (chunks.map Tick.data)).1,
      loopFuel_lines_data WINDOW POLL start WINDOW start chunks (Nat.le_refl start),
      Nat.sub_self]
    rfl
  · intro bs
    exact decode_bytesHexChars bs

/-- Claim C3: when opening the device fails, the run surfaces the device
error, prints no Received lines, and never reaches the completion
message. -/
theorem C3_open_failure_no_output (start : Nat) (ticks : List Tick) :
    (runDevice false start ticks).err = some RunError.deviceError
    ∧ (runDevice false start ticks).lines = []
    ∧ (runDevice false start ticks).donePrinted = false := by
  exact ⟨rfl, rfl, rfl⟩

/-- Claim C4: for every capture window and positive poll interval, the run
ends within one poll interval past the window, whatever the device
delivers. -/
theorem C4_terminates_within_window_plus_poll (window poll start : Nat)
    (ticks : List Tick) (hp : 0 < poll) :
    (runAt window poll start ticks).endTime - start < window + poll := by
  rw [(runAt_fields window poll start ticks).2.2.1]
  exact loopFuel_endTime_lt window poll start window start ticks
    (Nat.le_refl start) (by rw [Nat.sub_self]; omega)

/-- Witness for C4 at the source's own window and poll interval. -/
theorem C4_witness :
    0 < POLL ∧ (runAt WINDOW POLL 0 []).endTime - 0 < WINDOW + POLL :=
  ⟨by decide, C4_terminates_within_window_plus_poll WINDOW POLL 0 [] (by decide)⟩

/-- Claim C5: when the device delivers no data at any tick, the run prints
zero Received lines and still reports completion. -/
theorem C5_no_data_still_completes (start : Nat) (chunks : List (List Byte))
    (h : chunks.all (fun c => c.isEmpty) = true) :
    (runDevice true start (chunks.map Tick.data)).lines = []
    ∧ (runDevice true start (chunks.map Tick.data)).donePrinted = true := by
  have hrun : runDevice true start (chunks.map Tick.data)
      = runAt WINDOW POLL start (chunks.map Tick.data) := by
    simp [runDevice]
  rw [hrun]
  constructor
  · rw [(runAt_fields WINDOW POLL start (chunks.map Tick.data)).1,
      loopFuel_lines_data WINDOW POLL start WINDOW start chunks (Nat.le_refl start)]
    have hfil : (chunks.take
        (countTicksFuel WINDOW POLL WINDOW (start - start))).filter
          (fun c => !c.isEmpty) = [] := by
      rw [List.filter_eq_nil_iff]
      intro c hc
      have hce := List.all_eq_true.mp h c (List.mem_of_mem_take hc)
      simp only [hce, Bool.not_true, Bool.false_eq_true, not_false_eq_true]
    rw [hfil]
    rfl
  · rw [(runAt_fields WINDOW POLL start (chunks.map Tick.data)).2.2.2.2.2,
      loopFuel_err_data]
    rfl

/-- Witness for C5: one tick with an empty buffer. -/
theorem C5_witness :
    ([[]] : List (List Byte)).all (fun c => c.isEmpty) = true
    ∧ ((runDevice true 0 (([[]] : List (List Byte)).map Tick.data)).lines = []
        ∧ (runDevice true 0
            (([[]] : List (List Byte)).map Tick.data)).donePrinted = true) :=
  ⟨rfl, C5_no_data_still_completes 0 [[]] rfl⟩

/-- Claim C6: at a poll tick the program reads exactly when the queried
buffered-byte count is positive, and the read takes the whole buffer —
`port.read(port.in_waiting)` returns all currently available bytes. -/
theorem C6_read_iff_buffered (bs : List Byte) :
    pollOutput bs
        = (if 0 < inWaiting (Tick.data bs) then [receivedLine bs] else [])
    ∧ bufferRead bs (inWaiting (Tick.data bs)) = bs := by
  have hr : bufferRead bs (inWaiting (Tick.data bs)) = bs := by
    simp [bufferRead, inWaiting]
  constructor
  · unfold pollOutput
    rw [hr]
  · exact hr

/-- Claim C7: the line for a chunk carries the hex rendering and the
textual rendering of that same chunk on one line: every character of the
hex part is a lowercase hex digit, and no character of the whole line is a
newline. -/
theorem C7_one_line_two_renderings (bs : List Byte) :
    (receivedLine bs).data
        = "Received: ".data ++ (bytesHex bs).data
          ++ " | ASCII: ".data ++ (bytesRepr bs).data
    ∧ ((bytesHex bs).data.all fun c => (unhexDigit c).isSome) = true
    ∧ (bytesHex bs).data.count (Char.ofNat 10) = 0
    ∧ (receivedLine bs).data.count (Char.ofNat 10) = 0 := by
  refine ⟨rfl, bytesHexChars_lower bs, ?_, ?_⟩
  · rw [List.count_eq_zero]
    exact bytesHexChars_newline bs
  · rw [List.count_eq_zero]
    intro hmem
    have hsplit : (receivedLine bs).data
        = "Received: ".data ++ (bytesHexChars bs
          ++ (" | ASCII: ".data ++ bytesReprChars bs)) := by
      simp [receivedLine]
    rw [hsplit] at hmem
    rcases List.mem_append.mp hmem with hlit | hmem2
    · exact absurd hlit (by decide)
    rcases List.mem_append.mp hmem2 with hhex | hmem3
    · exact bytesHexChars_newline bs hhex
    rcases List.mem_append.mp hmem3 with hlit2 | hrepr
    · exact absurd hlit2 (by decide)
    · exact bytesReprChars_newline bs hrepr

/-- Claim C8: the loop sleeps the fixed poll interval once per iteration —
the sleep count is a function of window and poll alone, independent of the
delivered data — the clock advances only by those sleeps, and the source's
interval is 100 ms. -/
theorem C8_fixed_sleep_every_iteration (window poll start : Nat)
    (chunks : List (List Byte)) :
    (runAt window poll start (chunks.map Tick.data)).sleeps
        = countTicks window poll
    ∧ (runAt window poll start (chunks.map Tick.data)).endTime
        = start + poll * (runAt window poll start (chunks.map Tick.data)).sleeps
    ∧ POLL = 100 := by
  have h := loopFuel_time_data window poll start window start chunks
    (Nat.le_refl start)
  rw [Nat.sub_self] at h
  refine ⟨?_, ?_, rfl⟩
  · rw [(runAt_fields window poll start (chunks.map Tick.data)).2.2.2.1]
    exact h.1
  · rw [(runAt_fields window poll start (chunks.map Tick.data)).2.2.1,
      (runAt_fields window poll start (chunks.map Tick.data)).2.2.2.1]
    exact h.2

/-- Claim C9: the printed lines are a function of the delivered tick
schedule alone — two runs over the same schedule, started at different
wall-clock instants, print the same sequence of lines. -/
theorem C9_output_deterministic (start1 start2 : Nat) (ticks : List Tick) :
    (runAt WINDOW POLL start1 ticks).lines
      = (runAt WINDOW POLL start2 ticks).lines := by
  rw [(runAt_fields WINDOW POLL start1 ticks).1,
    (runAt_fields WINDOW POLL start2 ticks).1]
  exact loopFuel_lines_shift WINDOW POLL WINDOW start1 start1 start2 start2 ticks
    (Nat.le_refl start1) (Nat.le_refl start2) (by rw [Nat.sub_self, Nat.sub_self])

/-- Claim C10: every printed Received line renders a nonempty chunk: the
read happens only when the buffered count is positive and takes exactly
the buffered bytes. -/
theorem C10_printed_chunks_nonempty (window poll start : Nat)
    (chunks : List (List Byte)) (l : String)
    (hmem : l ∈ (runAt window poll start (chunks.map Tick.data)).lines) :
    ∃ c : List Byte, c ≠ [] ∧ l = receivedLine c := by
  rw [(runAt_fields window poll start (chunks.map Tick.data)).1,
    loopFuel_lines_data window poll start window start chunks
      (Nat.le_refl start)] at hmem
  rw [List.mem_map] at hmem
  obtain ⟨c, hc, rfl⟩ := hmem
  rw [List.mem_filter] at hc
  refine ⟨c, ?_, rfl⟩
  cases c with
  | nil => exact absurd hc.2 (by decide)
  | cons x xs => exact List.cons_ne_nil x xs

/-- Witness for C10: a one-tick schedule delivering the byte 65. -/
theorem C10_witness :
    receivedLine [(65 : Byte)]
        ∈ (runAt 1 1 0 (([[65]] : List (List Byte)).map Tick.data)).lines
    ∧ ∃ c : List Byte, c ≠ [] ∧ receivedLine [(65 : Byte)] = receivedLine c :=
  ⟨by decide, C10_printed_chunks_nonempty 1 1 0 [[65]] (receivedLine [(65 : Byte)])
    (by decide)⟩

end SerialMonitor
